import Mathlib

/-!
Verification of the Identity Resolution & Profile Enrichment Engine of the
conference-connection repository.

The definitions below are shallow embeddings of the TypeScript source:
  * `src/lib/rate-limit.ts`          (in-memory limiter `checkInMemory`,
                                      `buildBlockedResponse` retry-after)
  * `src/app/api/onboarding/claim/route.ts`   (exact / fuzzy name matching)
  * `src/app/api/lookup-linkedin/route.ts`    (relevance scoring of search hits)
  * `src/app/api/enrich-profile/route.ts`     (orchestrator, context builder,
                                      model resolver, JSON response recovery)

Modelling conventions: JavaScript numbers that only ever hold non-negative
integers (timestamps in ms, counters, seconds) are `Nat`; quantities the code
can drive negative (`remaining`) are `Int`.  JavaScript strings are Lean
`String`s manipulated through their `List Char` data; `toLowerCase`,
`.length` and `.substring` are modelled per character, which agrees with the
source on the ASCII/BMP inputs the endpoints handle.  Outbound HTTP calls are
parameters of the embedding: each modelled handler returns, along with its
outcome, the ordered list of outbound calls it performed.
-/

/-- JavaScript whitespace as used by `trim()` and the `\s` regex class
(ASCII portion, which covers the inputs of this code). -/
def isJsWs (c : Char) : Bool :=
  c = ' ' || c = '\t' || c = '\n' || c = '\r' || c = '\x0b' || c = '\x0c'

/-- `String.trim` of JavaScript, on the character list. -/
def jsTrimList (l : List Char) : List Char :=
  ((l.dropWhile isJsWs).reverse.dropWhile isJsWs).reverse

/-- `s.trim()` of JavaScript. -/
def jsTrim (s : String) : String :=
  String.mk (jsTrimList s.data)

/-- `s.toLowerCase()` (ASCII case folding, as exercised by the source). -/
def jsLower (s : String) : String :=
  String.mk (s.data.map Char.toLower)

/-- `s.substring(0, n)` of JavaScript. -/
def jsTake (n : Nat) (s : String) : String :=
  String.mk (s.data.take n)

/-- Whether `needle` occurs as a prefix of `hay` (character lists). -/
def prefixAt (needle hay : List Char) : Bool :=
  needle.isPrefixOf hay

/-- `hay.includes(needle)` of JavaScript. -/
def listIncludes (needle : List Char) : List Char → Bool
  | [] => needle.isEmpty
  | c :: rest => prefixAt needle (c :: rest) || listIncludes needle rest

/-- `hay.includes(needle)` of JavaScript, on `String`. -/
def jsIncludes (hay needle : String) : Bool :=
  listIncludes needle.data hay.data

/- ---------------------------------------------------------------------
`src/lib/rate-limit.ts`: the in-memory fallback limiter.
--------------------------------------------------------------------- -/

/-- An entry of the in-memory rate-limit store (`InMemoryEntry`). -/
structure InMemoryEntry where
  count : Nat
  resetAt : Nat
deriving Repr, DecidableEq

/-- The module-level `memoryStore` map plus the `lastCleanup` timestamp.
The `Map` is modelled as an association list; `set` replaces the first
binding of a key and `get` returns it, matching `Map` semantics for stores
that never hold duplicate keys. -/
structure MemState where
  store : List (String × InMemoryEntry)
  lastCleanup : Nat
deriving Repr, DecidableEq

/-- `memoryStore.get key`. -/
def storeGet (key : String) : List (String × InMemoryEntry) → Option InMemoryEntry
  | [] => none
  | (k, e) :: rest => if k = key then some e else storeGet key rest

/-- `memoryStore.set key entry` (replace the binding, or append a new one). -/
def storeSet (key : String) (v : InMemoryEntry) :
    List (String × InMemoryEntry) → List (String × InMemoryEntry)
  | [] => [(key, v)]
  | (k, e) :: rest => if k = key then (key, v) :: rest else (k, e) :: storeSet key v rest

/-- `CLEANUP_INTERVAL_MS = 5 * 60 * 1000`. -/
def CLEANUP_INTERVAL_MS : Nat := 5 * 60 * 1000

/-- `cleanupExpired()`: every five minutes, drop the entries whose window has
already reset (`entry.resetAt < now`).  Returns the new `lastCleanup` and the
surviving store. -/
def cleanupExpired (now : Nat) (st : MemState) : MemState :=
  if now - st.lastCleanup < CLEANUP_INTERVAL_MS then st
  else
    { store := st.store.filter (fun kv => !decide (kv.2.resetAt < now)),
      lastCleanup := now }

/-- The value returned by `checkInMemory`. -/
structure CheckResult where
  allowed : Bool
  remaining : Int
  resetAt : Nat
deriving Repr, DecidableEq

/-- `checkInMemory(key, limit, windowSec)` of `src/lib/rate-limit.ts`,
with the ambient `Date.now()` and the module state made explicit. -/
def checkInMemory (key : String) (limit windowSec now : Nat) (st : MemState) :
    CheckResult × MemState :=
  let st := cleanupExpired now st
  let windowMs := windowSec * 1000
  match storeGet key st.store with
  | none =>
      let resetAt := now + windowMs
      (⟨true, (limit : Int) - 1, resetAt⟩,
       { st with store := storeSet key ⟨1, resetAt⟩ st.store })
  | some entry =>
      if entry.resetAt < now then
        let resetAt := now + windowMs
        (⟨true, (limit : Int) - 1, resetAt⟩,
         { st with store := storeSet key ⟨1, resetAt⟩ st.store })
      else if limit ≤ entry.count then
        (⟨false, 0, entry.resetAt⟩, st)
      else
        (⟨true, (limit : Int) - (entry.count + 1), entry.resetAt⟩,
         { st with store := storeSet key ⟨entry.count + 1, entry.resetAt⟩ st.store })

/-- `Math.ceil((resetAt - Date.now()) / 1000)` of `buildBlockedResponse`,
for the denial path on which `now ≤ resetAt` always holds. -/
def retryAfterSec (resetAt now : Nat) : Nat :=
  (resetAt - now + 999) / 1000

/-- A sequence of admission checks for one caller key, at the given times. -/
def runRequests (key : String) (limit windowSec : Nat) :
    List Nat → MemState → List CheckResult × MemState
  | [], st => ([], st)
  | t :: ts, st =>
      let r := checkInMemory key limit windowSec t st
      let rest := runRequests key limit windowSec ts r.2
      (r.1 :: rest.1, rest.2)

lemma storeGet_mem {key : String} {e : InMemoryEntry} :
    ∀ {l : List (String × InMemoryEntry)}, storeGet key l = some e → (key, e) ∈ l := by
  intro l
  induction l with
  | nil => intro h; simp [storeGet] at h
  | cons p rest ih =>
      obtain ⟨k, e'⟩ := p
      intro h
      by_cases hk : k = key
      · subst hk
        simp [storeGet] at h
        subst h
        exact List.mem_cons_self _ _
      · simp [storeGet, hk] at h
        exact List.mem_cons_of_mem _ (ih h)

lemma storeSet_mem {key : String} {v : InMemoryEntry} {p : String × InMemoryEntry} :
    ∀ {l : List (String × InMemoryEntry)}, p ∈ storeSet key v l → p = (key, v) ∨ p ∈ l := by
  intro l
  induction l with
  | nil => intro h; simp [storeSet] at h; left; exact h
  | cons q rest ih =>
      obtain ⟨k, e'⟩ := q
      intro h
      by_cases hk : k = key
      · subst hk
        simp [storeSet] at h
        rcases h with h | h
        · left; exact h
        · right; exact List.mem_cons_of_mem _ h
      · simp [storeSet, hk] at h
        rcases h with h | h
        · right; simp [h]
        · rcases ih h with h' | h'
          · left; exact h'
          · right; exact List.mem_cons_of_mem _ h'

lemma cleanupExpired_store_sub {now : Nat} {st : MemState} {p : String × InMemoryEntry} :
    p ∈ (cleanupExpired now st).store → p ∈ st.store := by
  unfold cleanupExpired
  split
  · exact id
  · intro h; exact (List.mem_filter.mp h).1

lemma cleanupExpired_singleton (now : Nat) (key : String) (e : InMemoryEntry) (lc : Nat)
    (hlive : ¬ e.resetAt < now) :
    ∃ lc', cleanupExpired now ⟨[(key, e)], lc⟩ = ⟨[(key, e)], lc'⟩ := by
  unfold cleanupExpired
  split
  · exact ⟨lc, rfl⟩
  · exact ⟨now, by simp [List.filter, hlive]⟩

lemma checkInMemory_empty (key : String) (limit W t lc : Nat) :
    ∃ lc', checkInMemory key limit W t ⟨[], lc⟩ =
      (⟨true, (limit : Int) - 1, t + W * 1000⟩, ⟨[(key, ⟨1, t + W * 1000⟩)], lc'⟩) := by
  unfold checkInMemory cleanupExpired
  split
  · exact ⟨lc, by simp [storeGet, storeSet]⟩
  · exact ⟨t, by simp [storeGet, storeSet, List.filter]⟩

lemma checkInMemory_singleton_incr (key : String) (limit W t k R lc : Nat)
    (hlive : ¬ R < t) (hk : k < limit) :
    ∃ lc', checkInMemory key limit W t ⟨[(key, ⟨k, R⟩)], lc⟩ =
      (⟨true, (limit : Int) - (k + 1 : Nat), R⟩, ⟨[(key, ⟨k + 1, R⟩)], lc'⟩) := by
  obtain ⟨lc', hcl⟩ := cleanupExpired_singleton t key ⟨k, R⟩ lc hlive
  refine ⟨lc', ?_⟩
  unfold checkInMemory
  rw [hcl]
  simp [storeGet, storeSet, hlive, Nat.not_le.mpr hk]

lemma checkInMemory_singleton_deny (key : String) (limit W t k R lc : Nat)
    (hlive : ¬ R < t) (hk : limit ≤ k) :
    ∃ lc', checkInMemory key limit W t ⟨[(key, ⟨k, R⟩)], lc⟩ =
      (⟨false, 0, R⟩, ⟨[(key, ⟨k, R⟩)], lc'⟩) := by
  obtain ⟨lc', hcl⟩ := cleanupExpired_singleton t key ⟨k, R⟩ lc hlive
  refine ⟨lc', ?_⟩
  unfold checkInMemory
  rw [hcl]
  simp [storeGet, hlive, hk]

lemma runRequests_live (key : String) (limit W R : Nat) :
    ∀ (ts : List Nat) (k lc : Nat), k + ts.length ≤ limit →
    (∀ t ∈ ts, t < R) →
    ((runRequests key limit W ts ⟨[(key, ⟨k, R⟩)], lc⟩).1.all (·.allowed)) ∧
    ∃ lc', (runRequests key limit W ts ⟨[(key, ⟨k, R⟩)], lc⟩).2 =
      ⟨[(key, ⟨k + ts.length, R⟩)], lc'⟩ := by
  intro ts
  induction ts with
  | nil =>
      intro k lc _ _
      exact ⟨by simp [runRequests], lc, by simp [runRequests]⟩
  | cons t ts ih =>
      intro k lc hle hin
      have hk : k < limit := by simp at hle; omega
      have hlive : ¬ R < t := by
        have := hin t (by simp)
        omega
      obtain ⟨lc', hstep⟩ := checkInMemory_singleton_incr key limit W t k R lc hlive hk
      have hle' : (k + 1) + ts.length ≤ limit := by simp at hle; omega
      have hin' : ∀ u ∈ ts, u < R := fun u hu => hin u (by simp [hu])
      obtain ⟨hall, lc'', hfin⟩ := ih (k + 1) lc' hle' hin'
      constructor
      · simp only [runRequests, hstep]
        simpa using hall
      · refine ⟨lc'', ?_⟩
        simp only [runRequests, hstep]
        rw [hfin]
        simp
        omega

lemma runRequests_length (key : String) (limit W : Nat) :
    ∀ (ts : List Nat) (st : MemState),
      (runRequests key limit W ts st).1.length = ts.length := by
  intro ts
  induction ts with
  | nil => intro st; simp [runRequests]
  | cons t ts ih => intro st; simp [runRequests, ih]

/-- C4: with `maxRequests = N` and window `W` seconds, a fresh caller key
that issues `N` requests inside one window has every one of them (in
particular the `N`-th) allowed; the `(N+1)`-th request inside the window is
denied, deterministically reports the window reset time `t0 + W * 1000`, and
its `Retry-After` value (`buildBlockedResponse`) is positive. -/
theorem rateLimiter_window_nth_allowed_overflow_denied
    (key : String) (N W t0 lc : Nat) (mid : List Nat) (tN : Nat)
    (hN : 1 ≤ N) (hmid : mid.length = N - 1)
    (hin : ∀ t ∈ mid, t < t0 + W * 1000) (hlast : tN < t0 + W * 1000) :
    (runRequests key N W (t0 :: mid) ⟨[], lc⟩).1.length = N ∧
    ((runRequests key N W (t0 :: mid) ⟨[], lc⟩).1.all (·.allowed)) ∧
    (checkInMemory key N W tN (runRequests key N W (t0 :: mid) ⟨[], lc⟩).2).1.allowed = false ∧
    (checkInMemory key N W tN (runRequests key N W (t0 :: mid) ⟨[], lc⟩).2).1.resetAt
      = t0 + W * 1000 ∧
    0 < retryAfterSec
        (checkInMemory key N W tN (runRequests key N W (t0 :: mid) ⟨[], lc⟩).2).1.resetAt tN := by
  obtain ⟨lc1, h1⟩ := checkInMemory_empty key N W t0 lc
  have hrun : runRequests key N W (t0 :: mid) ⟨[], lc⟩ =
      (⟨true, (N : Int) - 1, t0 + W * 1000⟩ ::
        (runRequests key N W mid ⟨[(key, ⟨1, t0 + W * 1000⟩)], lc1⟩).1,
       (runRequests key N W mid ⟨[(key, ⟨1, t0 + W * 1000⟩)], lc1⟩).2) := by
    simp only [runRequests, h1]
  have hle : 1 + mid.length ≤ N := by omega
  obtain ⟨hall, lc2, hfin⟩ := runRequests_live key N W (t0 + W * 1000) mid 1 lc1 hle hin
  have hlivelast : ¬ (t0 + W * 1000) < tN := by omega
  have hfull : N ≤ 1 + mid.length := by omega
  obtain ⟨lc3, hdeny⟩ :=
    checkInMemory_singleton_deny key N W tN (1 + mid.length) (t0 + W * 1000) lc2 hlivelast hfull
  refine ⟨?_, ?_, ?_, ?_, ?_⟩
  · rw [hrun]; simp [runRequests_length, hmid]; omega
  · rw [hrun]; simpa using hall
  · rw [hrun]; rw [hfin] at *; rw [hdeny]
  · rw [hrun]; rw [hfin] at *; rw [hdeny]
  · rw [hrun]; rw [hfin] at *; rw [hdeny]
    have : 1 ≤ t0 + W * 1000 - tN := by omega
    exact Nat.div_pos (by simp only []; omega) (by norm_num)

/-- C4 witness: limiter `N = 2`, `W = 60` seconds; requests at times
`0, 1` are allowed and the third request at time `2` is denied with a
positive retry-after. -/
theorem rateLimiter_window_witness :
    (runRequests "k" 2 60 (0 :: [1]) ⟨[], 0⟩).1.length = 2 ∧
    ((runRequests "k" 2 60 (0 :: [1]) ⟨[], 0⟩).1.all (·.allowed)) ∧
    (checkInMemory "k" 2 60 2 (runRequests "k" 2 60 (0 :: [1]) ⟨[], 0⟩).2).1.allowed = false ∧
    (checkInMemory "k" 2 60 2 (runRequests "k" 2 60 (0 :: [1]) ⟨[], 0⟩).2).1.resetAt
      = 0 + 60 * 1000 ∧
    0 < retryAfterSec
        (checkInMemory "k" 2 60 2 (runRequests "k" 2 60 (0 :: [1]) ⟨[], 0⟩).2).1.resetAt 2 :=
  rateLimiter_window_nth_allowed_overflow_denied "k" 2 60 0 0 [1] 2
    (by norm_num) (by simp) (by intro t ht; simp at ht; omega) (by norm_num)

/-- C9: the in-memory store invariant.  For any store in which every entry's
count is at most the configured limit (with `1 ≤ limit`, as all configured
limiters have), an admission check preserves the invariant: it resets an
absent/expired entry to count 1, increments a live entry only when its count
is strictly below the limit, and on a denial leaves every count unchanged
(the resulting store is exactly the cleanup-filtered store). -/
theorem checkInMemory_count_invariant
    (key : String) (limit W now : Nat) (st : MemState)
    (hlim : 1 ≤ limit) (hinv : ∀ p ∈ st.store, p.2.count ≤ limit) :
    (∀ p ∈ (checkInMemory key limit W now st).2.store, p.2.count ≤ limit) ∧
    ((checkInMemory key limit W now st).1.allowed = false →
      (checkInMemory key limit W now st).2.store = (cleanupExpired now st).store) := by
  have hcl : ∀ p ∈ (cleanupExpired now st).store, p.2.count ≤ limit :=
    fun p hp => hinv p (cleanupExpired_store_sub hp)
  cases hg : storeGet key (cleanupExpired now st).store with
  | none =>
      constructor
      · intro p hp
        simp only [checkInMemory, hg] at hp
        rcases storeSet_mem hp with h | h
        · rw [h]; exact hlim
        · exact hcl p h
      · intro hfalse
        simp [checkInMemory, hg] at hfalse
  | some e =>
      by_cases hexp : e.resetAt < now
      · constructor
        · intro p hp
          simp only [checkInMemory, hg, if_pos hexp] at hp
          rcases storeSet_mem hp with h | h
          · rw [h]; exact hlim
          · exact hcl p h
        · intro hfalse
          simp [checkInMemory, hg, if_pos hexp] at hfalse
      · by_cases hfull : limit ≤ e.count
        · constructor
          · intro p hp
            simp only [checkInMemory, hg, if_neg hexp, if_pos hfull] at hp
            exact hcl p hp
          · intro _
            simp [checkInMemory, hg, if_neg hexp, if_pos hfull]
        · constructor
          · intro p hp
            simp only [checkInMemory, hg, if_neg hexp, if_neg hfull] at hp
            rcases storeSet_mem hp with h | h
            · rw [h]; simpa using Nat.lt_of_not_le hfull
            · exact hcl p h
          · intro hfalse
            simp [checkInMemory, hg, if_neg hexp, if_neg hfull] at hfalse

/-- C9 witness: a concrete live store at the limit, checked once. -/
theorem checkInMemory_count_invariant_witness :
    (∀ p ∈ (checkInMemory "k" 2 60 5 ⟨[("k", ⟨2, 9⟩)], 0⟩).2.store, p.2.count ≤ 2) ∧
    ((checkInMemory "k" 2 60 5 ⟨[("k", ⟨2, 9⟩)], 0⟩).1.allowed = false →
      (checkInMemory "k" 2 60 5 ⟨[("k", ⟨2, 9⟩)], 0⟩).2.store
        = (cleanupExpired 5 ⟨[("k", ⟨2, 9⟩)], 0⟩).store) :=
  checkInMemory_count_invariant "k" 2 60 5 ⟨[("k", ⟨2, 9⟩)], 0⟩ (by norm_num)
    (by intro p hp; simp at hp; simp [hp])

/- ---------------------------------------------------------------------
JavaScript `s.split(/\s+/)`: fields between maximal whitespace runs,
including an empty leading/trailing field when the string starts/ends
with whitespace, and `[""]` for the empty string.
--------------------------------------------------------------------- -/

mutual

def wsFields : List Char → List Char → List String
  | [], cur => [String.mk cur.reverse]
  | c :: l, cur =>
      if isJsWs c then String.mk cur.reverse :: wsSkip l
      else wsFields l (c :: cur)

def wsSkip : List Char → List String
  | [] => [""]
  | c :: l => if isJsWs c then wsSkip l else wsFields l [c]

end

/-- `s.split(/\s+/)` of JavaScript. -/
def jsSplitWs (s : String) : List String :=
  wsFields s.data []

/- ---------------------------------------------------------------------
`src/app/api/onboarding/claim/route.ts`, Step 2: exact / fuzzy name check.
--------------------------------------------------------------------- -/

/-- `existing.name.trim().toLowerCase() === name.trim().toLowerCase()`. -/
def nameExactMatch (storedName inputName : String) : Bool :=
  jsLower (jsTrim storedName) == jsLower (jsTrim inputName)

/-- The fuzzy-match branch of the claim route: both trimmed names must split
into at least two whitespace tokens; then the last tokens must be equal
(case-insensitively) and the first tokens must agree on their first two
characters, both being at least two characters long. -/
def nameFuzzyMatch (inputName storedName : String) : Bool :=
  let inputParts := jsSplitWs (jsTrim inputName)
  let dbParts := jsSplitWs (jsTrim storedName)
  if 2 ≤ inputParts.length ∧ 2 ≤ dbParts.length then
    let inputFirst := jsLower (inputParts.getD 0 "")
    let inputLast := jsLower (inputParts.getD (inputParts.length - 1) "")
    let dbFirst := jsLower (dbParts.getD 0 "")
    let dbLast := jsLower (dbParts.getD (dbParts.length - 1) "")
    (inputLast == dbLast) && decide (2 ≤ inputFirst.length) &&
      decide (2 ≤ dbFirst.length) && (jsTake 2 inputFirst == jsTake 2 dbFirst)
  else false

/-- `if (!exactMatch && !fuzzyMatch) return 404`: the claim route accepts a
(name, stored-record) pair iff the exact or the fuzzy comparison succeeds. -/
def claimNameAccepted (inputName storedName : String) : Bool :=
  nameExactMatch storedName inputName || nameFuzzyMatch inputName storedName

/-- The fuzzy criterion exactly as claim C3 words it (no requirement that the
names split into at least two tokens): last tokens equal case-insensitively,
first two characters of the first tokens equal case-insensitively, both first
tokens at least two characters long. -/
def fuzzyCriterionSpec (inputName storedName : String) : Bool :=
  let inputParts := jsSplitWs (jsTrim inputName)
  let dbParts := jsSplitWs (jsTrim storedName)
  let inputFirst := jsLower (inputParts.getD 0 "")
  let inputLast := jsLower (inputParts.getD (inputParts.length - 1) "")
  let dbFirst := jsLower (dbParts.getD 0 "")
  let dbLast := jsLower (dbParts.getD (dbParts.length - 1) "")
  (inputLast == dbLast) && decide (2 ≤ inputFirst.length) &&
    decide (2 ≤ dbFirst.length) && (jsTake 2 inputFirst == jsTake 2 dbFirst)

/-- C3 counterexample: for query "Smyth Smith" against the stored single-token
name "Smith", the claim's criterion holds (the last tokens are both "smith",
the first tokens "smyth"/"smith" are at least 2 characters and share "sm"),
yet the code's fuzzy match rejects, because it also requires the stored name
to split into at least two tokens.  So the claimed "if and only if" is false. -/
theorem claim_fuzzy_iff_counterexample :
    nameExactMatch "Smith" "Smyth Smith" = false ∧
    fuzzyCriterionSpec "Smyth Smith" "Smith" = true ∧
    nameFuzzyMatch "Smyth Smith" "Smith" = false ∧
    claimNameAccepted "Smyth Smith" "Smith" = false := by
  refine ⟨?_, ?_, ?_, ?_⟩ <;> decide

/-- C3 (amended): the claim route accepts on an exact case-insensitive
whole-name match; failing that, the fuzzy match succeeds if and only if both
trimmed names split into at least two whitespace tokens, the last tokens are
equal case-insensitively, and the first two characters of the two first
tokens are equal case-insensitively with both first tokens at least two
characters long.  In particular "Rob Smith" matches stored "Robert Smith"
and "Robert Jones" does not. -/
theorem claim_name_match_characterization (inputName storedName : String) :
    (nameExactMatch storedName inputName = true →
      claimNameAccepted inputName storedName = true) ∧
    (nameExactMatch storedName inputName = false →
      (claimNameAccepted inputName storedName = true ↔
        (2 ≤ (jsSplitWs (jsTrim inputName)).length ∧
         2 ≤ (jsSplitWs (jsTrim storedName)).length) ∧
        jsLower ((jsSplitWs (jsTrim inputName)).getD
            ((jsSplitWs (jsTrim inputName)).length - 1) "") =
          jsLower ((jsSplitWs (jsTrim storedName)).getD
            ((jsSplitWs (jsTrim storedName)).length - 1) "") ∧
        2 ≤ (jsLower ((jsSplitWs (jsTrim inputName)).getD 0 "")).length ∧
        2 ≤ (jsLower ((jsSplitWs (jsTrim storedName)).getD 0 "")).length ∧
        jsTake 2 (jsLower ((jsSplitWs (jsTrim inputName)).getD 0 "")) =
          jsTake 2 (jsLower ((jsSplitWs (jsTrim storedName)).getD 0 "")))) ∧
    claimNameAccepted "Rob Smith" "Robert Smith" = true ∧
    claimNameAccepted "Robert Jones" "Robert Smith" = false := by
  refine ⟨?_, ?_, by decide, by decide⟩
  · intro h
    simp [claimNameAccepted, h]
  · intro hexact
    simp only [claimNameAccepted, hexact, Bool.false_or]
    simp only [nameFuzzyMatch]
    split_ifs with hlen
    · simp only [Bool.and_eq_true, decide_eq_true_eq, beq_iff_eq]
      constructor
      · rintro ⟨⟨⟨hlast, hf1⟩, hf2⟩, htake⟩
        exact ⟨hlen, hlast, hf1, hf2, htake⟩
      · rintro ⟨_, hlast, hf1, hf2, htake⟩
        exact ⟨⟨⟨hlast, hf1⟩, hf2⟩, htake⟩
    · constructor
      · intro h
        cases h
      · rintro ⟨hl, _⟩
        exact absurd hl hlen

/-- C3 witness: the amended iff at the concrete pair from the claim,
with the exact-match hypothesis discharged by evaluation. -/
theorem claim_name_match_witness :
    claimNameAccepted "Rob Smith" "Robert Smith" = true ∧
    claimNameAccepted "Robert Jones" "Robert Smith" = false :=
  ⟨((claim_name_match_characterization "Rob Smith" "Robert Smith").2.1
      (by decide)).mpr (by refine ⟨⟨?_, ?_⟩, ?_, ?_, ?_, ?_⟩ <;> decide),
   (claim_name_match_characterization "Robert Jones" "Robert Smith").2.2.2⟩

/- ---------------------------------------------------------------------
`src/app/api/lookup-linkedin/route.ts`: candidate filtering and scoring.
--------------------------------------------------------------------- -/

/-- A Tavily search hit (`TavilySearchResult`); every field is optional in
the TypeScript interface.  The enrichment route's variant of this interface
omits `url`, which it never reads. -/
structure TavilySearchResult where
  title : Option String
  url : Option String
  content : Option String
deriving Repr, DecidableEq

/-- `` `${title} ${content}` `` with both parts `(… || '').toLowerCase()`. -/
def combinedText (r : TavilySearchResult) : String :=
  jsLower (r.title.getD "") ++ " " ++ jsLower (r.content.getD "")

/-- `url.includes('linkedin.com/in/')` over `result.url || ''`. -/
def isPersonalProfileUrl (r : TavilySearchResult) : Bool :=
  jsIncludes (r.url.getD "") "linkedin.com/in/"

/-- One token loop of the scorer: add `pts` for every token of length > 2
found in the combined text. -/
def tokenScore (combined : String) (pts : Nat) (tokens : List String) : Nat :=
  tokens.foldl
    (fun acc part =>
      if 2 < part.length ∧ jsIncludes combined part = true then acc + pts else acc) 0

/-- The relevance score of one candidate: +10 per name token, +5 per
job-title token, and +15 for a verbatim company match, else +3 per company
token.  `job_title`/`company` equal to the empty string are falsy in the
source (`if (job_title)`, `if (company)`) and contribute nothing. -/
def scoreResult (name : String) (job_title company : Option String)
    (r : TavilySearchResult) : Nat :=
  let combined := combinedText r
  let nameScore := tokenScore combined 10 (jsSplitWs (jsLower name))
  let jobScore :=
    match job_title with
    | none => 0
    | some jt => if jt.isEmpty then 0 else tokenScore combined 5 (jsSplitWs (jsLower jt))
  let companyScore :=
    match company with
    | none => 0
    | some co =>
        if co.isEmpty then 0
        else if jsIncludes combined (jsLower co) then 15
        else tokenScore combined 3 (jsSplitWs (jsLower co))
  nameScore + jobScore + companyScore

/-- `scoredResults.sort((a, b) => b.score - a.score)[0]`: `Array.sort` is
stable, so the head of the descending sort is the first-encountered
candidate of maximal score; this fold computes exactly that element. -/
def pickBestScored : List (TavilySearchResult × Nat) → Option (TavilySearchResult × Nat)
  | [] => none
  | x :: xs => some (xs.foldl (fun best c => if best.2 < c.2 then c else best) x)

/-- The candidate-selection pipeline of the route: keep only personal
LinkedIn profile URLs, attach scores, return the best match (or `none`,
which the route reports as `linkedin_url: null`). -/
def lookupBestLinkedIn (results : List TavilySearchResult) (name : String)
    (job_title company : Option String) : Option (TavilySearchResult × Nat) :=
  let linkedInResults := results.filter isPersonalProfileUrl
  pickBestScored (linkedInResults.map (fun r => (r, scoreResult name job_title company r)))

/-- Number of tokens of length > 2 found in the combined text. -/
def countFound (combined : String) (tokens : List String) : Nat :=
  (tokens.filter (fun t => decide (2 < t.length) && jsIncludes combined t)).length

lemma tokenScore_aux (combined : String) (pts : Nat) :
    ∀ (tokens : List String) (acc : Nat),
      tokens.foldl
        (fun acc part =>
          if 2 < part.length ∧ jsIncludes combined part = true then acc + pts else acc) acc
        = acc + pts * countFound combined tokens := by
  intro tokens
  induction tokens with
  | nil => intro acc; simp [countFound]
  | cons t ts ih =>
      intro acc
      by_cases h : 2 < t.length ∧ jsIncludes combined t = true
      · have hb : (decide (2 < t.length) && jsIncludes combined t) = true := by
          simp [h.1, h.2]
        rw [List.foldl_cons, if_pos h, ih]
        have hc : countFound combined (t :: ts) = countFound combined ts + 1 := by
          simp [countFound, List.filter_cons, hb]
        rw [hc, Nat.mul_add, Nat.mul_one]
        ring
      · have hb : (decide (2 < t.length) && jsIncludes combined t) = false := by
          rcases Decidable.not_and_iff_or_not.mp h with h' | h'
          · simp [h']
          · simp [eq_false_of_ne_true h']
        rw [List.foldl_cons, if_neg h, ih]
        have hc : countFound combined (t :: ts) = countFound combined ts := by
          simp [countFound, List.filter_cons, hb]
        rw [hc]

lemma tokenScore_eq (combined : String) (pts : Nat) (tokens : List String) :
    tokenScore combined pts tokens = pts * countFound combined tokens := by
  simpa using tokenScore_aux combined pts tokens 0

/-- The fold underlying `pickBestScored`. -/
def bestFold (x : TavilySearchResult × Nat) (xs : List (TavilySearchResult × Nat)) :
    TavilySearchResult × Nat :=
  xs.foldl (fun best c => if best.2 < c.2 then c else best) x

lemma pickBestScored_cons (x : TavilySearchResult × Nat)
    (xs : List (TavilySearchResult × Nat)) :
    pickBestScored (x :: xs) = some (bestFold x xs) := rfl

lemma bestFold_cons (x c : TavilySearchResult × Nat)
    (cs : List (TavilySearchResult × Nat)) :
    bestFold x (c :: cs) = bestFold (if x.2 < c.2 then c else x) cs := rfl

lemma bestFold_spec :
    ∀ (xs : List (TavilySearchResult × Nat)) (x : TavilySearchResult × Nat),
      ∃ pre post,
        x :: xs = pre ++ bestFold x xs :: post ∧
        (∀ q ∈ pre, q.2 < (bestFold x xs).2) ∧
        (∀ q ∈ x :: xs, q.2 ≤ (bestFold x xs).2) := by
  intro xs
  induction xs with
  | nil =>
      intro x
      refine ⟨[], [], by simp [bestFold], by simp, ?_⟩
      intro q hq
      simp at hq
      simp [hq, bestFold]
  | cons c cs ih =>
      intro x
      rw [bestFold_cons]
      by_cases hxc : x.2 < c.2
      · rw [if_pos hxc]
        obtain ⟨pre, post, hdec, hpre, hall⟩ := ih c
        have hcm : c.2 ≤ (bestFold c cs).2 := hall c (List.mem_cons_self _ _)
        refine ⟨x :: pre, post, ?_, ?_, ?_⟩
        · rw [List.cons_append, ← hdec]
        · intro q hq
          rcases List.mem_cons.mp hq with h | h
          · rw [h]; exact lt_of_lt_of_le hxc hcm
          · exact hpre q h
        · intro q hq
          rcases List.mem_cons.mp hq with h | h
          · rw [h]; exact le_of_lt (lt_of_lt_of_le hxc hcm)
          · exact hall q h
      · rw [if_neg hxc]
        obtain ⟨pre, post, hdec, hpre, hall⟩ := ih x
        have hcx : c.2 ≤ x.2 := Nat.le_of_not_lt hxc
        have hxm : x.2 ≤ (bestFold x cs).2 := hall x (List.mem_cons_self _ _)
        cases pre with
        | nil =>
            have hx : x = bestFold x cs := (List.cons.injEq _ _ _ _ ▸ hdec).1
            refine ⟨[], c :: cs, ?_, by simp, ?_⟩
            · simp [← hx]
            · intro q hq
              rcases List.mem_cons.mp hq with h | h
              · rw [h]; exact hxm
              · rcases List.mem_cons.mp h with h' | h'
                · rw [h']; exact le_trans hcx hxm
                · exact hall q (List.mem_cons_of_mem _ h')
        | cons a pre' =>
            have ha : a = x ∧ cs = pre' ++ bestFold x cs :: post := by
              have := hdec
              rw [List.cons_append] at this
              exact ⟨((List.cons.injEq _ _ _ _).mp this).1.symm,
                     ((List.cons.injEq _ _ _ _).mp this).2⟩
            have hxlt : x.2 < (bestFold x cs).2 := by
              have := hpre a (List.mem_cons_self _ _)
              rw [ha.1] at this
              exact this
            refine ⟨x :: c :: pre', post, ?_, ?_, ?_⟩
            · rw [List.cons_append, List.cons_append, ← ha.2]
            · intro q hq
              rcases List.mem_cons.mp hq with h | h
              · rw [h]; exact hxlt
              · rcases List.mem_cons.mp h with h' | h'
                · rw [h']; exact lt_of_le_of_lt hcx hxlt
                · exact hpre q (List.mem_cons_of_mem _ h')
            · intro q hq
              rcases List.mem_cons.mp hq with h | h
              · rw [h]; exact hxm
              · rcases List.mem_cons.mp h with h' | h'
                · rw [h']; exact le_trans hcx hxm
                · exact hall q (List.mem_cons_of_mem _ h')

lemma bestFold_all_zero :
    ∀ (xs : List (TavilySearchResult × Nat)) (x : TavilySearchResult × Nat),
      x.2 = 0 → (∀ q ∈ xs, q.2 = 0) → bestFold x xs = x := by
  intro xs
  induction xs with
  | nil => intro x _ _; rfl
  | cons c cs ih =>
      intro x hx hxs
      rw [bestFold_cons]
      have hc : c.2 = 0 := hxs c (List.mem_cons_self _ _)
      have : ¬ x.2 < c.2 := by omega
      rw [if_neg this]
      exact ih x hx (fun q hq => hxs q (List.mem_cons_of_mem _ hq))

/-- C5: the relevance score is the additive formula of the specification
(+10 per name token of length > 2 found in the combined lowercased
title-plus-snippet text, +5 per job-title token, +15 for a verbatim company
match else +3 per company token), only candidates whose URL matches the
personal-profile pattern are scored, and the returned candidate is the
first-encountered candidate of maximal score (stable descending sort). -/
theorem linkedIn_scoring_characterization
    (results : List TavilySearchResult) (name : String)
    (job_title company : Option String) :
    (∀ r : TavilySearchResult,
      scoreResult name job_title company r =
        10 * countFound (combinedText r) (jsSplitWs (jsLower name)) +
        (match job_title with
         | none => 0
         | some jt =>
             if jt.isEmpty then 0
             else 5 * countFound (combinedText r) (jsSplitWs (jsLower jt))) +
        (match company with
         | none => 0
         | some co =>
             if co.isEmpty then 0
             else if jsIncludes (combinedText r) (jsLower co) = true then 15
             else 3 * countFound (combinedText r) (jsSplitWs (jsLower co)))) ∧
    (∀ p, lookupBestLinkedIn results name job_title company = some p →
      isPersonalProfileUrl p.1 = true ∧
      p.2 = scoreResult name job_title company p.1 ∧
      ∃ pre post,
        (results.filter isPersonalProfileUrl).map
            (fun r => (r, scoreResult name job_title company r)) = pre ++ p :: post ∧
        (∀ q ∈ pre, q.2 < p.2) ∧
        (∀ r ∈ results.filter isPersonalProfileUrl,
          scoreResult name job_title company r ≤ p.2)) := by
  constructor
  · intro r
    cases job_title with
    | none => cases company with
      | none => simp [scoreResult, tokenScore_eq]
      | some co => simp [scoreResult, tokenScore_eq]
    | some jt => cases company with
      | none => simp [scoreResult, tokenScore_eq]
      | some co => simp [scoreResult, tokenScore_eq]
  · intro p hp
    simp only [lookupBestLinkedIn] at hp
    cases hmap : (results.filter isPersonalProfileUrl).map
        (fun r => (r, scoreResult name job_title company r)) with
    | nil => rw [hmap] at hp; simp [pickBestScored] at hp
    | cons x xs =>
        rw [hmap, pickBestScored_cons] at hp
        have hpb : p = bestFold x xs := (Option.some.injEq _ _ ▸ hp).symm
        obtain ⟨pre, post, hdec, hpre, hall⟩ := bestFold_spec xs x
        have hmem : p ∈ x :: xs := by
          rw [hpb, hdec]
          exact List.mem_append_right _ (List.mem_cons_self _ _)
        have hmem' : p ∈ (results.filter isPersonalProfileUrl).map
            (fun r => (r, scoreResult name job_title company r)) := by
          rw [hmap]; exact hmem
        obtain ⟨r, hr, hpr⟩ := List.mem_map.mp hmem'
        refine ⟨?_, ?_, pre, post, ?_, ?_, ?_⟩
        · rw [← hpr]
          exact List.of_mem_filter hr
        · rw [← hpr]
        · rw [← hpb] at hdec
          exact hdec
        · intro q hq
          rw [← hpb] at hpre
          exact hpre q hq
        · intro s hs
          have : (s, scoreResult name job_title company s) ∈ x :: xs := by
            rw [← hmap]
            exact List.mem_map.mpr ⟨s, hs, rfl⟩
          have := hall _ this
          rw [← hpb] at this
          exact this

/-- C10: the lookup returns `null` exactly when no search result has a
personal-profile URL; whenever the filtered candidate list is non-empty it
returns its first candidate even if every candidate scored 0. -/
theorem linkedIn_zero_score_top_pick
    (results : List TavilySearchResult) (name : String)
    (job_title company : Option String) :
    (lookupBestLinkedIn results name job_title company = none ↔
      results.filter isPersonalProfileUrl = []) ∧
    (∀ c cs, results.filter isPersonalProfileUrl = c :: cs →
      (∀ r ∈ results.filter isPersonalProfileUrl,
        scoreResult name job_title company r = 0) →
      lookupBestLinkedIn results name job_title company = some (c, 0)) := by
  constructor
  · simp only [lookupBestLinkedIn]
    cases hf : results.filter isPersonalProfileUrl with
    | nil => simp [pickBestScored]
    | cons c cs => simp [pickBestScored_cons]
  · intro c cs hf hz
    have hc0 : scoreResult name job_title company c = 0 :=
      hz c (by rw [hf]; exact List.mem_cons_self _ _)
    simp only [lookupBestLinkedIn, hf, List.map_cons, pickBestScored_cons]
    have : bestFold (c, scoreResult name job_title company c)
        (cs.map (fun r => (r, scoreResult name job_title company r)))
        = (c, scoreResult name job_title company c) := by
      apply bestFold_all_zero
      · exact hc0
      · intro q hq
        obtain ⟨r, hr, hqr⟩ := List.mem_map.mp hq
        rw [← hqr]
        exact hz r (by rw [hf]; exact List.mem_cons_of_mem _ hr)
    rw [this, hc0]

/-- A concrete search hit used by the C5 witness. -/
def scoringWitnessHit : TavilySearchResult :=
  ⟨some "Rob Smith - Engineer", some "https://linkedin.com/in/robsmith",
   some "Rob Smith is an Engineer at Acme Corp"⟩

/-- C5 witness: a single personal-profile candidate scoring
10+10 (name tokens) + 5 (job-title token) + 15 (verbatim company) = 40. -/
theorem linkedIn_scoring_witness :
    isPersonalProfileUrl scoringWitnessHit = true ∧
    ((scoringWitnessHit, 40) : TavilySearchResult × Nat).2
      = scoreResult "Rob Smith" (some "Engineer") (some "Acme Corp") scoringWitnessHit ∧
    ∃ pre post,
      ([scoringWitnessHit].filter isPersonalProfileUrl).map
          (fun r => (r, scoreResult "Rob Smith" (some "Engineer") (some "Acme Corp") r))
        = pre ++ (scoringWitnessHit, 40) :: post ∧
      (∀ q ∈ pre, q.2 < ((scoringWitnessHit, 40) : TavilySearchResult × Nat).2) ∧
      (∀ r ∈ [scoringWitnessHit].filter isPersonalProfileUrl,
        scoreResult "Rob Smith" (some "Engineer") (some "Acme Corp") r
          ≤ ((scoringWitnessHit, 40) : TavilySearchResult × Nat).2) :=
  (linkedIn_scoring_characterization [scoringWitnessHit] "Rob Smith" (some "Engineer")
    (some "Acme Corp")).2 (scoringWitnessHit, 40) (by decide)

/-- Concrete personal-profile hits with no scoring signal (C10 witness). -/
def zeroScoreHitA : TavilySearchResult :=
  ⟨none, some "https://linkedin.com/in/abc", none⟩

/-- Second zero-signal personal-profile hit (C10 witness). -/
def zeroScoreHitB : TavilySearchResult :=
  ⟨none, some "https://linkedin.com/in/def", none⟩

/-- C10 witness: both candidates score 0, and the lookup still returns the
first-encountered candidate rather than `null`. -/
theorem linkedIn_zero_score_witness :
    lookupBestLinkedIn [zeroScoreHitA, zeroScoreHitB] "Zed Qux" none none
      = some (zeroScoreHitA, 0) :=
  (linkedIn_zero_score_top_pick [zeroScoreHitA, zeroScoreHitB] "Zed Qux" none none).2
    zeroScoreHitA [zeroScoreHitB] (by decide) (by decide)

/- ---------------------------------------------------------------------
`src/app/api/enrich-profile/route.ts`: `getSupportedGeminiModelName`.
The ListModels HTTP round trip is a parameter (`listing` is the parsed
body of a successful response); the third component of the result records
whether that round trip was performed.
--------------------------------------------------------------------- -/

/-- One entry of the ListModels response body (both fields optional). -/
structure GeminiModelRaw where
  name : Option String
  supportedGenerationMethods : Option (List String)
deriving Repr, DecidableEq

/-- An entry after the source's defaulting map. -/
structure GeminiModelInfo where
  name : String
  supportedGenerationMethods : List String
deriving Repr, DecidableEq

/-- `(json.models || []).map(... defaults ...).filter((m) => m.name)`. -/
def normalizedGeminiModels (listing : List GeminiModelRaw) : List GeminiModelInfo :=
  (listing.map (fun m =>
    GeminiModelInfo.mk (m.name.getD "") (m.supportedGenerationMethods.getD []))).filter
    (fun m => !m.name.isEmpty)

/-- `models.filter((m) => m.supportedGenerationMethods.includes('generateContent'))`. -/
def capableGeminiModels (listing : List GeminiModelRaw) : List GeminiModelInfo :=
  (normalizedGeminiModels listing).filter
    (fun m => m.supportedGenerationMethods.contains "generateContent")

/-- The static ordered preference list of the source. -/
def preferredGeminiModels : List String :=
  ["models/gemini-3-flash-preview",
   "models/gemini-3.0-flash-preview",
   "models/gemini-3-flash-preview-latest",
   "models/gemini-1.5-flash",
   "models/gemini-1.5-flash-latest",
   "models/gemini-1.5-pro",
   "models/gemini-1.0-pro",
   "models/gemini-pro"]

/-- `picked.startsWith('models/') ? picked.slice('models/'.length) : picked`. -/
def normalizeModelName (picked : String) : String :=
  if prefixAt "models/".data picked.data then String.mk (picked.data.drop 7) else picked

/-- `preferred.find(...) || supportsGenerateContent[0]?.name`, normalized;
`none` models the `throw` when no model supports `generateContent`. -/
def pickGeminiModel (listing : List GeminiModelRaw) : Option String :=
  match preferredGeminiModels.find?
      (fun p => (capableGeminiModels listing).any (fun m => m.name == p)) with
  | some p => some (normalizeModelName p)
  | none => (capableGeminiModels listing).head?.map (fun m => normalizeModelName m.name)

/-- The module-level cache (`cachedGeminiModelName`, `cachedGeminiModelAtMs`). -/
structure GeminiResolverState where
  cachedName : Option String
  cachedAtMs : Nat
deriving Repr, DecidableEq

/-- The 10-minute cache TTL of the source. -/
def GEMINI_MODEL_TTL_MS : Nat := 10 * 60 * 1000

/-- The no-cache-hit path: list, filter, pick, cache; the `throw` when no
model is capable leaves the cache untouched. -/
def resolveGeminiModelFresh (now : Nat) (listing : List GeminiModelRaw)
    (st : GeminiResolverState) : Except String String × GeminiResolverState × Bool :=
  match pickGeminiModel listing with
  | none => (.error "No models support generateContent for this key", st, true)
  | some nm => (.ok nm, ⟨some nm, now⟩, true)

/-- `getSupportedGeminiModelName(apiKey)`; the `Bool` is whether the
ListModels call was made.  The cached name must be truthy (non-empty) and
younger than the TTL for a cache hit, per the source's
`if (cachedGeminiModelName && now - cachedGeminiModelAtMs < 10 * 60 * 1000)`. -/
def getSupportedGeminiModelName (now : Nat) (listing : List GeminiModelRaw)
    (st : GeminiResolverState) : Except String String × GeminiResolverState × Bool :=
  match st.cachedName with
  | some n =>
      if !n.isEmpty ∧ now - st.cachedAtMs < GEMINI_MODEL_TTL_MS then (.ok n, st, false)
      else resolveGeminiModelFresh now listing st
  | none => resolveGeminiModelFresh now listing st

/-- C6: with a non-empty cached name resolved at `t0`, a call within the TTL
returns the cached name without the ListModels call; once the TTL has
elapsed the name is re-derived from a fresh listing (ListModels is called,
the result is the preference-list pick over the capable models, else the
first capable model, and resolution fails exactly when no capable model
exists). -/
theorem geminiResolver_ttl_cache
    (now t0 : Nat) (nm : String) (listing : List GeminiModelRaw)
    (hnm : nm.isEmpty = false) :
    (now - t0 < GEMINI_MODEL_TTL_MS →
      getSupportedGeminiModelName now listing ⟨some nm, t0⟩
        = (.ok nm, ⟨some nm, t0⟩, false)) ∧
    (GEMINI_MODEL_TTL_MS ≤ now - t0 →
      (getSupportedGeminiModelName now listing ⟨some nm, t0⟩).2.2 = true ∧
      (pickGeminiModel listing = none →
        getSupportedGeminiModelName now listing ⟨some nm, t0⟩
          = (.error "No models support generateContent for this key",
             ⟨some nm, t0⟩, true)) ∧
      (∀ m, pickGeminiModel listing = some m →
        getSupportedGeminiModelName now listing ⟨some nm, t0⟩
          = (.ok m, ⟨some m, now⟩, true))) ∧
    (pickGeminiModel listing = none ↔ capableGeminiModels listing = []) ∧
    (∀ p, preferredGeminiModels.find?
        (fun q => (capableGeminiModels listing).any (fun m => m.name == q)) = some p →
      pickGeminiModel listing = some (normalizeModelName p)) ∧
    (preferredGeminiModels.find?
        (fun q => (capableGeminiModels listing).any (fun m => m.name == q)) = none →
      pickGeminiModel listing
        = (capableGeminiModels listing).head?.map (fun m => normalizeModelName m.name)) := by
  refine ⟨?_, ?_, ?_, ?_, ?_⟩
  · intro hlt
    simp [getSupportedGeminiModelName, hnm, hlt]
  · intro hge
    have hcond : ¬ (!nm.isEmpty ∧ now - t0 < GEMINI_MODEL_TTL_MS) := by
      rintro ⟨-, h⟩
      omega
    refine ⟨?_, ?_, ?_⟩
    · simp only [getSupportedGeminiModelName, if_neg hcond]
      cases hp : pickGeminiModel listing <;> simp [resolveGeminiModelFresh, hp]
    · intro hp
      simp only [getSupportedGeminiModelName]
      rw [if_neg hcond]
      simp [resolveGeminiModelFresh, hp]
    · intro m hp
      simp only [getSupportedGeminiModelName]
      rw [if_neg hcond]
      simp [resolveGeminiModelFresh, hp]
  · cases hf : preferredGeminiModels.find?
        (fun q => (capableGeminiModels listing).any (fun m => m.name == q)) with
    | none =>
        simp only [pickGeminiModel, hf]
        cases hc : capableGeminiModels listing <;> simp
    | some p =>
        have hpred := List.find?_some hf
        simp only [List.any_eq_true, beq_iff_eq] at hpred
        obtain ⟨m, hm, -⟩ := hpred
        simp only [pickGeminiModel, hf]
        constructor
        · intro h; cases h
        · intro hc
          rw [hc] at hm
          cases hm
  · intro p hf
    simp [pickGeminiModel, hf]
  · intro hf
    simp [pickGeminiModel, hf]

/-- A concrete ListModels body for the C6 witness. -/
def geminiListingDemo : List GeminiModelRaw :=
  [⟨some "models/gemini-1.5-flash", some ["generateContent"]⟩]

/-- C6 witness: a cache hit at `now = 1000` (no ListModels call) and a
re-derivation at `now = 600000` (TTL elapsed; ListModels called and the
preference-list pick cached). -/
theorem geminiResolver_ttl_cache_witness :
    getSupportedGeminiModelName 1000 geminiListingDemo ⟨some "gemini-1.5-flash", 0⟩
      = (.ok "gemini-1.5-flash", ⟨some "gemini-1.5-flash", 0⟩, false) ∧
    getSupportedGeminiModelName 600000 geminiListingDemo ⟨some "gemini-1.5-flash", 0⟩
      = (.ok "gemini-1.5-flash", ⟨some "gemini-1.5-flash", 600000⟩, true) :=
  ⟨(geminiResolver_ttl_cache 1000 0 "gemini-1.5-flash" geminiListingDemo (by decide)).1
      (by norm_num [GEMINI_MODEL_TTL_MS]),
   ((geminiResolver_ttl_cache 600000 0 "gemini-1.5-flash" geminiListingDemo
      (by decide)).2.1 (by norm_num [GEMINI_MODEL_TTL_MS])).2.2 "gemini-1.5-flash"
      (by decide)⟩

/- ---------------------------------------------------------------------
A model of `JSON.parse` (ECMA-404 grammar) on character lists, used by the
response-recovery tiers of `src/app/api/enrich-profile/route.ts`.
Number values keep their lexeme (the route never reads numeric values);
`\uXXXX` escapes decode to the code point without surrogate-pair pairing
(no input considered here contains surrogate escapes).
--------------------------------------------------------------------- -/

/-- A JSON value as produced by `JSON.parse`. -/
inductive Json where
  | null
  | bool (b : Bool)
  | num (lexeme : String)
  | str (s : String)
  | arr (items : List Json)
  | obj (fields : List (String × Json))
deriving Repr

/-- JSON insignificant whitespace. -/
def isJsonWs (c : Char) : Bool :=
  c = ' ' || c = '\t' || c = '\n' || c = '\r'

/-- Hexadecimal digit value. -/
def hexVal (c : Char) : Option Nat :=
  if '0' ≤ c ∧ c ≤ '9' then some (c.toNat - '0'.toNat)
  else if 'a' ≤ c ∧ c ≤ 'f' then some (c.toNat - 'a'.toNat + 10)
  else if 'A' ≤ c ∧ c ≤ 'F' then some (c.toNat - 'A'.toNat + 10)
  else none

/-- The body of a JSON string, after the opening quote: decodes escape
sequences, rejects raw control characters, returns the value and the rest. -/
def jsonStringBody : List Char → List Char → Option (String × List Char)
  | [], _ => none
  | c :: rest, acc =>
    if c = '"' then some (String.mk acc.reverse, rest)
    else if c = '\\' then
      match rest with
      | [] => none
      | e :: rest2 =>
        if e = '"' then jsonStringBody rest2 ('"' :: acc)
        else if e = '\\' then jsonStringBody rest2 ('\\' :: acc)
        else if e = '/' then jsonStringBody rest2 ('/' :: acc)
        else if e = 'b' then jsonStringBody rest2 ('\x08' :: acc)
        else if e = 'f' then jsonStringBody rest2 ('\x0c' :: acc)
        else if e = 'n' then jsonStringBody rest2 ('\n' :: acc)
        else if e = 'r' then jsonStringBody rest2 ('\r' :: acc)
        else if e = 't' then jsonStringBody rest2 ('\t' :: acc)
        else if e = 'u' then
          match rest2 with
          | h1 :: h2 :: h3 :: h4 :: rest3 =>
            match hexVal h1, hexVal h2, hexVal h3, hexVal h4 with
            | some a, some b, some c3, some d =>
                jsonStringBody rest3 (Char.ofNat (((a * 16 + b) * 16 + c3) * 16 + d) :: acc)
            | _, _, _, _ => none
          | _ => none
        else none
    else if c.toNat < 32 then none
    else jsonStringBody rest (c :: acc)

/-- A JSON string token (opening quote included). -/
def jsonStringTok : List Char → Option (String × List Char)
  | '"' :: rest => jsonStringBody rest []
  | _ => none

/-- The exponent tail of a JSON number token. -/
def jsonNumberExpTail (pre : List Char) (e : Char) (l : List Char) :
    Option (String × List Char) :=
  let (sign, l1) :=
    match l with
    | '+' :: t => (['+'], t)
    | '-' :: t => (['-'], t)
    | _ => (([] : List Char), l)
  let ds := l1.takeWhile Char.isDigit
  if ds.isEmpty then none
  else some (String.mk (pre ++ e :: sign ++ ds), l1.dropWhile Char.isDigit)

/-- The fraction/exponent tail of a JSON number token. -/
def jsonNumberFracExp (pre : List Char) (l : List Char) : Option (String × List Char) :=
  let (fracPart, afterFrac) :=
    match l with
    | '.' :: t =>
        if (t.takeWhile Char.isDigit).isEmpty then (none, l)
        else (some ('.' :: t.takeWhile Char.isDigit), t.dropWhile Char.isDigit)
    | _ => (none, l)
  match fracPart, l with
  | none, '.' :: _ => none
  | _, _ =>
    let lexeme := pre ++ fracPart.getD []
    match afterFrac with
    | 'e' :: t2 => jsonNumberExpTail lexeme 'e' t2
    | 'E' :: t2 => jsonNumberExpTail lexeme 'E' t2
    | _ => some (String.mk lexeme, afterFrac)

/-- A JSON number token; the lexeme is kept verbatim. -/
def jsonNumberTok (l : List Char) : Option (String × List Char) :=
  let (neg, l1) :=
    match l with
    | '-' :: t => (['-'], t)
    | _ => (([] : List Char), l)
  match l1 with
  | [] => none
  | c :: t =>
    if c = '0' then
      jsonNumberFracExp (neg ++ [c]) t
    else if c.isDigit then
      jsonNumberFracExp (neg ++ c :: t.takeWhile Char.isDigit) (t.dropWhile Char.isDigit)
    else none

mutual

/-- A JSON value (leading whitespace allowed), under fuel. -/
def jsonValue : Nat → List Char → Option (Json × List Char)
  | 0, _ => none
  | fuel + 1, l =>
    match l.dropWhile isJsonWs with
    | [] => none
    | c :: rest =>
      if c = '{' then
        match rest.dropWhile isJsonWs with
        | '}' :: r2 => some (.obj [], r2)
        | r => jsonMember fuel r []
      else if c = '[' then
        match rest.dropWhile isJsonWs with
        | ']' :: r2 => some (.arr [], r2)
        | r => jsonItem fuel r []
      else if c = '"' then
        (jsonStringBody rest []).map (fun p => (.str p.1, p.2))
      else if c = 't' then
        match rest with
        | 'r' :: 'u' :: 'e' :: r2 => some (.bool true, r2)
        | _ => none
      else if c = 'f' then
        match rest with
        | 'a' :: 'l' :: 's' :: 'e' :: r2 => some (.bool false, r2)
        | _ => none
      else if c = 'n' then
        match rest with
        | 'u' :: 'l' :: 'l' :: r2 => some (.null, r2)
        | _ => none
      else
        (jsonNumberTok (c :: rest)).map (fun p => (.num p.1, p.2))

/-- Object members, positioned at the start of a key. -/
def jsonMember : Nat → List Char → List (String × Json) → Option (Json × List Char)
  | 0, _, _ => none
  | fuel + 1, l, acc =>
    match jsonStringTok l with
    | none => none
    | some (k, l1) =>
      match l1.dropWhile isJsonWs with
      | ':' :: l3 =>
        match jsonValue fuel l3 with
        | none => none
        | some (v, l4) =>
          match l4.dropWhile isJsonWs with
          | ',' :: l6 => jsonMember fuel (l6.dropWhile isJsonWs) ((k, v) :: acc)
          | '}' :: l6 => some (.obj ((k, v) :: acc).reverse, l6)
          | _ => none
      | _ => none

/-- Array items, positioned at the start of an element. -/
def jsonItem : Nat → List Char → List Json → Option (Json × List Char)
  | 0, _, _ => none
  | fuel + 1, l, acc =>
    match jsonValue fuel l with
    | none => none
    | some (v, l1) =>
      match l1.dropWhile isJsonWs with
      | ',' :: l3 => jsonItem fuel l3 (v :: acc)
      | ']' :: l3 => some (.arr (v :: acc).reverse, l3)
      | _ => none

end

/-- `JSON.parse`: a single value, with only whitespace allowed after it.
The fuel `2·|l| + 4` dominates the recursion depth (every other recursive
call consumes at least one character). -/
def jsonParseChars (l : List Char) : Option Json :=
  match jsonValue (2 * l.length + 4) l with
  | some (v, rest) => if (rest.dropWhile isJsonWs).isEmpty then some v else none
  | none => none

/-- `JSON.parse` on a string. -/
def jsonParse (s : String) : Option Json :=
  jsonParseChars s.data

/-- Property access `obj[key]` on a parse result: objects from `JSON.parse`
keep the last binding of a duplicated key. -/
def jsonField (j : Json) (key : String) : Option Json :=
  match j with
  | .obj fields => fields.foldl (fun acc kv => if kv.1 == key then some kv.2 else acc) none
  | _ => none

/- ---------------------------------------------------------------------
`src/app/api/enrich-profile/route.ts`: candidate extraction
(`text.match(/\{[\s\S]*\}/)`, `text.match(/```json[\s\S]*?```/i)`),
light repair, and the staged response recovery.
--------------------------------------------------------------------- -/

/-- Case-insensitive prefix test (the `/i` regex flag, ASCII folding). -/
def prefixAtCI : List Char → List Char → Bool
  | [], _ => true
  | _ :: _, [] => false
  | a :: as, b :: bs => (a.toLower == b.toLower) && prefixAtCI as bs

/-- First index at which `needle` occurs case-insensitively. -/
def findIdxCI (needle : List Char) : List Char → Option Nat
  | [] => if needle.isEmpty then some 0 else none
  | c :: rest =>
      if prefixAtCI needle (c :: rest) then some 0
      else (findIdxCI needle rest).map (· + 1)

/-- The characters of the opening fence marker. -/
def ticksJson : List Char := "```json".data

/-- The characters of the fence marker. -/
def ticks : List Char := "```".data

/-- `text.match(/```json[\s\S]*?```/i)`: the match starts at the first
(case-insensitive) `` ```json `` and ends at the earliest following ```` ``` ````. -/
def fencedBlock (l : List Char) : Option (List Char) :=
  match findIdxCI ticksJson l with
  | none => none
  | some i =>
    match findIdxCI ticks (l.drop (i + 7)) with
    | none => none
    | some k => some ((l.drop i).take (7 + k + 3))

/-- `fencedMatch[0].replace(/```json|```/gi, "")`: delete every
case-insensitive occurrence of `` ```json `` (preferred alternative) or
```` ``` ````, scanning left to right.  Fuel-based recursion (the fuel
`|l| + 1` never runs out: every step consumes at least one character). -/
def stripFencesFuel : Nat → List Char → List Char
  | 0, _ => []
  | _, [] => []
  | fuel + 1, c :: rest =>
    if prefixAtCI ticksJson (c :: rest) then stripFencesFuel fuel ((c :: rest).drop 7)
    else if prefixAtCI ticks (c :: rest) then stripFencesFuel fuel ((c :: rest).drop 3)
    else c :: stripFencesFuel fuel rest

/-- `fencedMatch[0].replace(/```json|```/gi, "")`. -/
def stripFences (l : List Char) : List Char :=
  stripFencesFuel (l.length + 1) l

lemma dropWhile_length_le (p : Char → Bool) :
    ∀ (l : List Char), (l.dropWhile p).length ≤ l.length := by
  intro l
  induction l with
  | nil => simp
  | cons c t ih =>
      by_cases h : p c
      · simp only [List.dropWhile, h]
        exact Nat.le_succ_of_le ih
      · simp [List.dropWhile, h]

/-- `text.match(/\{[\s\S]*\}/)`: greedy, so from the first `{` to the last
`}`, provided the `}` comes strictly later. -/
def braceSubstring (l : List Char) : Option (List Char) :=
  match l.findIdx? (· = '{') with
  | none => none
  | some i =>
    match l.reverse.findIdx? (· = '}') with
    | none => none
    | some rj =>
      let j := l.length - 1 - rj
      if i < j then some ((l.drop i).take (j - i + 1)) else none

/-- The `a || b` chaining of the candidate expression: an empty string is
falsy and falls through. -/
def orNonEmpty (a : Option (List Char)) (b : List Char) : List Char :=
  match a with
  | some x => if x.isEmpty then b else x
  | none => b

/-- The `candidate` the route parses: the stripped and trimmed fenced block
if any, else the brace substring, else the trimmed raw text. -/
def candidateOf (text : List Char) : List Char :=
  orNonEmpty ((fencedBlock text).map (fun b => jsTrimList (stripFences b)))
    (orNonEmpty (braceSubstring text) (jsTrimList text))

/-- `.replace(/[“”]/g, '"')`. -/
def smartQuoteFix (c : Char) : Char :=
  if c = '“' ∨ c = '”' then '"' else c

/-- One pass of `.replace(/,\s*X/g, 'X')` for `X` a closing bracket, under
fuel (`|l| + 1` suffices: every step consumes at least one character). -/
def stripTrailingCommaFuel (close : Char) : Nat → List Char → List Char
  | 0, _ => []
  | _, [] => []
  | fuel + 1, c :: rest =>
    if c = ',' then
      match rest.dropWhile isJsWs with
      | d :: t =>
          if d = close then close :: stripTrailingCommaFuel close fuel t
          else c :: stripTrailingCommaFuel close fuel rest
      | [] => c :: stripTrailingCommaFuel close fuel rest
    else c :: stripTrailingCommaFuel close fuel rest

/-- One pass of `.replace(/,\s*X/g, 'X')` for `X` a closing bracket. -/
def stripTrailingComma (close : Char) (l : List Char) : List Char :=
  stripTrailingCommaFuel close (l.length + 1) l

/-- The `sanitized` candidate: smart quotes normalized, then `,}` and `,]`
repairs, in the source's order. -/
def sanitizeCandidate (l : List Char) : List Char :=
  stripTrailingComma ']' (stripTrailingComma '}' (l.map smartQuoteFix))

/-- The hard-coded `aiResponse` used when the strict retry still fails to
parse (3 generic sentences). -/
def fallbackAiSummary : List String :=
  ["Experienced professional in their field",
   "Focused on collaboration and industry impact",
   "Open to meaningful networking conversations"]

/-- The hard-coded tag list of the same fallback `aiResponse`. -/
def fallbackAiTags : List String :=
  ["Brand Communications",
   "Data and Technology",
   "Sales, Partnerships and Merchandise"]

/-- The fallback `aiResponse` object. -/
def fallbackAiJson : Json :=
  .obj [("summary", .arr (fallbackAiSummary.map .str)),
        ("industry_tags", .arr (fallbackAiTags.map .str))]

/-- The Step-4 default summary used when `aiResponse.summary` is not an array. -/
def step4DefaultSummary : List String :=
  ["Professional in their field", "Experienced industry expert", "Open to networking"]

/-- The Step-4 default tags used when `aiResponse.industry_tags` is not an array. -/
def step4DefaultTags : List String :=
  ["Business", "Professional", "Networking"]

/-- Tier: `JSON.parse(candidate)`. -/
def parsedCandidate (text : String) : Option Json :=
  jsonParseChars (candidateOf text.data)

/-- Tier: `JSON.parse(sanitized)`. -/
def parsedSanitized (text : String) : Option Json :=
  jsonParseChars (sanitizeCandidate (candidateOf text.data))

/-- The parse attempts made on the first generation text, before the strict
re-generation is considered. -/
def recoverAiCore (text : String) : Option Json :=
  match parsedCandidate text with
  | some j => some j
  | none => parsedSanitized text

/-- The full recovery of the route, with the strict re-generation's text as
a parameter: candidate parse, repaired parse, strict text parse
(`JSON.parse(strictText)` on the trimmed strict output), then the fixed
fallback object. -/
def recoverAi (text strictText : String) : Json :=
  match recoverAiCore text with
  | some j => j
  | none =>
    match jsonParseChars (jsTrimList strictText.data) with
    | some j => j
    | none => fallbackAiJson

/-- Step-4 normalization of one field: `Array.isArray(x) ? x.slice(0, 3)`
else the fixed default list. -/
def normalizeField (j : Json) (key : String) (dflt : List String) : List Json :=
  match jsonField j key with
  | some (.arr xs) => xs.take 3
  | _ => dflt.map .str

/-- Recovery followed by Step-4 normalization: the `(summary,
industry_tags)` the route responds with for a given raw model text and
strict-retry text. -/
def recoverResult (text strictText : String) : List Json × List Json :=
  (normalizeField (recoverAi text strictText) "summary" step4DefaultSummary,
   normalizeField (recoverAi text strictText) "industry_tags" step4DefaultTags)

/-- The recovery procedure exactly as claim C2 words it: a direct
`JSON.parse` of the raw text comes first, and only if it fails do the
extraction, repair, strict-retry and default tiers run. -/
def recoverResultSpecClaim (text strictText : String) : List Json × List Json :=
  match jsonParse text with
  | some j =>
      (normalizeField j "summary" step4DefaultSummary,
       normalizeField j "industry_tags" step4DefaultTags)
  | none => recoverResult text strictText

/-- The ordered strategy list of the amended recovery description. -/
def recoverStrategies : List (String → String → Option Json) :=
  [fun text _ => parsedCandidate text,
   fun text _ => parsedSanitized text,
   fun _ strictText => jsonParseChars (jsTrimList strictText.data)]

/-- First strategy that yields a value. -/
def firstSomeStrategy : List (String → String → Option Json) → String → String → Option Json
  | [], _, _ => none
  | f :: fs, t, s =>
    match f t s with
    | some j => some j
    | none => firstSomeStrategy fs t s

/-- Projection used to separate two recovery outcomes concretely. -/
def firstSummaryEntry (p : List Json × List Json) : String :=
  match p.1 with
  | .str s :: _ => s
  | _ => ""

/- ---------------------------------------------------------------------
`src/app/api/enrich-profile/route.ts`: `buildContextFromResults` and the
`POST` handler pipeline.
--------------------------------------------------------------------- -/

/-- The Tavily response body (`results` and `answer` both optional). -/
structure TavilyResponse where
  results : Option (List TavilySearchResult)
  answer : Option String
deriving Repr, DecidableEq

/-- `{ results: [], answer: '' }`, the value used before the search and on
any search failure. -/
def emptyTavilyResponse : TavilyResponse := ⟨some [], some ""⟩

/-- The `about` contribution: present only when `about` is truthy and
non-blank (`if (about && about.trim().length > 0)`). -/
def contextAboutPart (about : Option String) : String :=
  match about with
  | some a =>
      if (jsTrimList a.data).isEmpty then ""
      else "User-provided context: " ++ jsTrim a ++ "\n\n"
  | none => ""

/-- The synthesized-answer contribution (`if (searchResults.answer)`;
the empty string is falsy). -/
def contextAnswerPart (sr : TavilyResponse) : String :=
  match sr.answer with
  | some ans => if ans.isEmpty then "" else "AI Summary: " ++ ans ++ "\n\n"
  | none => ""

/-- One snippet block: header with 1-based index, `title || 'N/A'`, and the
content truncated to 300 characters when present (`if (result.content)`). -/
def contextSourceSnippet (idx : Nat) (r : TavilySearchResult) : String :=
  "Source " ++ toString (idx + 1) ++ ":\nTitle: "
    ++ (if (r.title.getD "").isEmpty then "N/A" else r.title.getD "") ++ "\n"
    ++ (match r.content with
        | some c => if c.isEmpty then "" else "Content: " ++ jsTake 300 c ++ "...\n"
        | none => "")
    ++ "\n"

/-- The `results.slice(0, 3).forEach(...)` contribution. -/
def contextSourcesPart (sr : TavilyResponse) : String :=
  String.join (((sr.results.getD []).take 3).enum.map
    (fun p => contextSourceSnippet p.1 p.2))

/-- The marker appended when the context stayed under 100 characters. -/
def limitedInfoMarker (name : String) : String :=
  "Limited information available about " ++ name
    ++ ". Please infer based on any available context."

/-- `buildContextFromResults(searchResults, name, about)`: the sequential
`context += …` construction of the source. -/
def buildContextFromResults (sr : TavilyResponse) (name : String)
    (about : Option String) : String :=
  let c1 := contextAboutPart about
  let c2 := c1 ++ contextAnswerPart sr
  let c3 := c2 ++ contextSourcesPart sr
  if c3.length < 100 then c3 ++ limitedInfoMarker name else c3

/-- A generation attempt: the raw text, or a thrown error whose
`isModelIssue` mirrors `status === 404 || /not found|not supported/`. -/
inductive GenAttempt where
  | ok (text : String)
  | err (isModelIssue : Bool) (msg : String)
deriving Repr, DecidableEq

/-- The outbound network calls the handler can make, in order. -/
inductive OutboundCall where
  | tavilySearch
  | geminiGenerate
  | geminiListModels
  | geminiGenerateFallback
  | geminiGenerateStrict
deriving Repr, DecidableEq

/-- The observable outcome of the `POST` handler. -/
inductive EnrichOutcome where
  | validationError (msg : String)
  | configError (msg : String)
  | geminiError (msg : String)
  | success (summary industry_tags : List Json) (sources_found : Nat)
      (tavily_error : Option String)
deriving Repr

/-- The request body. -/
structure EnrichProfileRequest where
  name : String
  job_title : Option String
  company : Option String
  linkedin_url : Option String
  about : Option String
deriving Repr, DecidableEq

/-- The two environment credentials the handler reads. -/
structure EnrichEnv where
  geminiKey : Option String
  tavilyKey : Option String
deriving Repr, DecidableEq

/-- Step 4 of the handler: the success payload built from a recovered
`aiResponse`. -/
def enrichSuccess (j : Json) (sr : TavilyResponse) (tavErr : Option String) :
    EnrichOutcome :=
  .success (normalizeField j "summary" step4DefaultSummary)
    (normalizeField j "industry_tags" step4DefaultTags)
    (match sr.results with | some l => l.length | none => 0)
    tavErr

/-- The tail of the generation block, once some model produced `text`:
candidate/sanitized parse, then the strict re-generation (whose own throw
surfaces as a Gemini error), then the fixed fallback object; followed by
Step-4 normalization. -/
def enrichFinish (text : String) (genStrict : GenAttempt) (sr : TavilyResponse)
    (tavErr : Option String) (calls : List OutboundCall) :
    EnrichOutcome × List OutboundCall :=
  match recoverAiCore text with
  | some j => (enrichSuccess j sr tavErr, calls)
  | none =>
    match genStrict with
    | .err _ msg => (.geminiError msg, calls ++ [.geminiGenerateStrict])
    | .ok st =>
        (enrichSuccess ((jsonParseChars (jsTrimList st.data)).getD fallbackAiJson) sr tavErr,
         calls ++ [.geminiGenerateStrict])

/-- Step 1: the best-effort Tavily search.  A missing/empty key throws
inside the `try`, so both it and a failed call degrade to the empty
response with the error message recorded; a performed call is traced. -/
def enrichSearchStep (env : EnrichEnv) (searchOutcome : Except String TavilyResponse) :
    TavilyResponse × Option String × List OutboundCall :=
  match env.tavilyKey with
  | none => (emptyTavilyResponse, some "Missing TAVILY_API_KEY server env var", [])
  | some tk =>
    if tk.isEmpty then
      (emptyTavilyResponse, some "Missing TAVILY_API_KEY server env var", [])
    else
      match searchOutcome with
      | .ok r => (r, none, [.tavilySearch])
      | .error e => (emptyTavilyResponse, some e, [.tavilySearch])

/-- Step 3: the generation block.  A non-model-issue error from the first
attempt rethrows; a model-issue error goes through the resolver (whose
throw also surfaces) and one fallback-model attempt. -/
def enrichGenPhase (sr : TavilyResponse) (tavErr : Option String)
    (calls0 : List OutboundCall) (gen1 : GenAttempt) (resolver : Except String String)
    (genFallback : GenAttempt) (genStrict : GenAttempt) :
    EnrichOutcome × List OutboundCall :=
  match gen1 with
  | .ok text => enrichFinish text genStrict sr tavErr (calls0 ++ [.geminiGenerate])
  | .err isModelIssue msg =>
    if !isModelIssue then (.geminiError msg, calls0 ++ [.geminiGenerate])
    else
      match resolver with
      | .error rmsg =>
          (.geminiError rmsg, calls0 ++ [.geminiGenerate, .geminiListModels])
      | .ok _ =>
        match genFallback with
        | .err _ fmsg =>
            (.geminiError fmsg,
             calls0 ++ [.geminiGenerate, .geminiListModels, .geminiGenerateFallback])
        | .ok text =>
            enrichFinish text genStrict sr tavErr
              (calls0 ++ [.geminiGenerate, .geminiListModels, .geminiGenerateFallback])

/-- The `POST` handler of `src/app/api/enrich-profile/route.ts`.  The
outbound calls (Tavily search, first generation, ListModels / fallback
generation, strict re-generation) are parameters carrying their outcomes;
the second component lists the calls actually made, in order. -/
def enrichPOST (req : EnrichProfileRequest) (env : EnrichEnv)
    (searchOutcome : Except String TavilyResponse)
    (gen1 : GenAttempt) (resolver : Except String String)
    (genFallback : GenAttempt) (genStrict : GenAttempt) :
    EnrichOutcome × List OutboundCall :=
  if (jsTrimList req.name.data).isEmpty then (.validationError "Name is required", [])
  else
    match env.geminiKey with
    | none => (.configError "Missing DEFAULT_GEMINI_API_KEY server env var", [])
    | some gk =>
      if gk.isEmpty then (.configError "Missing DEFAULT_GEMINI_API_KEY server env var", [])
      else
        match enrichSearchStep env searchOutcome with
        | (sr, tavErr, calls0) =>
          let _contextText := buildContextFromResults sr req.name req.about
          enrichGenPhase sr tavErr calls0 gen1 resolver genFallback genStrict

/-- The raw text separating the two recovery tier orders: it is valid JSON
(so a direct `JSON.parse` would succeed), but it contains a fenced-looking
substring inside a string value, so the code's fence extraction runs first
and hands `"y"` — not JSON — to every parse tier. -/
def recoverCexText : String := "\x7b\"x\":\"```json y ```\"\x7d"

/-- C2 counterexample: the claimed order (direct parse before extraction)
disagrees observably with the code (extraction before any parse).  On
`recoverCexText`, a direct parse succeeds and the claimed procedure ends in
the Step-4 defaults, while the code's procedure exhausts all parse tiers
and returns the fixed fallback object — a different result. -/
theorem recover_tier_order_counterexample :
    jsonParse recoverCexText = some (.obj [("x", .str "```json y ```")]) ∧
    recoverResult recoverCexText "nope"
      = (fallbackAiSummary.map Json.str, fallbackAiTags.map Json.str) ∧
    recoverResultSpecClaim recoverCexText "nope"
      = (step4DefaultSummary.map Json.str, step4DefaultTags.map Json.str) ∧
    recoverResult recoverCexText "nope" ≠ recoverResultSpecClaim recoverCexText "nope" := by
  refine ⟨by rfl, by rfl, by rfl, ?_⟩
  intro h
  exact absurd (congrArg firstSummaryEntry h) (by decide)

/-- C2 (amended): the recovery never fails: it is the ordered strategy list
candidate parse (fenced block stripped and trimmed, else largest brace
substring, else the trimmed raw text), then light syntactic repair
(smart quotes, trailing commas), then the strict re-generation's text parsed
directly, with the fixed generic default (3 generic sentences, 3 generic
tags) as the terminal tier; `recover("not json at all")` with an unparsable
strict retry returns that fixed default. -/
theorem recover_tiers_characterization (text strictText : String) :
    recoverAi text strictText
      = (firstSomeStrategy recoverStrategies text strictText).getD fallbackAiJson ∧
    recoverResult "not json at all" "still not json"
      = (fallbackAiSummary.map Json.str, fallbackAiTags.map Json.str) ∧
    fallbackAiSummary.length = 3 ∧ fallbackAiTags.length = 3 := by
  refine ⟨?_, by rfl, by rfl, by rfl⟩
  cases h1 : parsedCandidate text with
  | some j => simp [recoverAi, recoverAiCore, firstSomeStrategy, recoverStrategies, h1]
  | none =>
    cases h2 : parsedSanitized text with
    | some j => simp [recoverAi, recoverAiCore, firstSomeStrategy, recoverStrategies, h1, h2]
    | none =>
      cases h3 : jsonParseChars (jsTrimList strictText.data) <;>
        simp [recoverAi, recoverAiCore, firstSomeStrategy, recoverStrategies, h1, h2, h3]

/-- C7: the built context is the `about` part, then the synthesized-answer
part, then the snippets of the first at-most-3 results (each content
truncated to 300 characters), in that order, with the limited-information
marker appended exactly when that text is shorter than 100 characters. -/
theorem buildContext_structure (sr : TavilyResponse) (name : String)
    (about : Option String) :
    buildContextFromResults sr name about
      = (if (contextAboutPart about ++ contextAnswerPart sr
              ++ contextSourcesPart sr).length < 100
         then contextAboutPart about ++ contextAnswerPart sr ++ contextSourcesPart sr
              ++ limitedInfoMarker name
         else contextAboutPart about ++ contextAnswerPart sr ++ contextSourcesPart sr) ∧
    contextSourcesPart sr
      = String.join (((sr.results.getD []).take 3).enum.map
          (fun p => contextSourceSnippet p.1 p.2)) ∧
    ((sr.results.getD []).take 3).length ≤ 3 ∧
    (∀ s : String, (jsTake 300 s).length ≤ 300) := by
  refine ⟨rfl, rfl, ?_, ?_⟩
  · simp [List.length_take]
  · intro s
    show (s.data.take 300).length ≤ 300
    simp [List.length_take]

lemma normalizeField_length_le (j : Json) (key : String) (dflt : List String)
    (h3 : dflt.length = 3) : (normalizeField j key dflt).length ≤ 3 := by
  unfold normalizeField
  cases hf : jsonField j key with
  | none => simp [h3]
  | some v => cases v <;> simp [h3, List.length_take]

lemma enrichSuccess_mk (j : Json) (sr : TavilyResponse) (te : Option String)
    {s t : List Json} {n : Nat} {e : Option String}
    (h : enrichSuccess j sr te = .success s t n e) :
    s = normalizeField j "summary" step4DefaultSummary ∧
    t = normalizeField j "industry_tags" step4DefaultTags := by
  unfold enrichSuccess at h
  injection h with h1 h2 h3 h4
  exact ⟨h1.symm, h2.symm⟩

lemma enrichFinish_success_bounds (text : String) (gs : GenAttempt)
    (sr : TavilyResponse) (te : Option String) (calls : List OutboundCall)
    {s t : List Json} {n : Nat} {e : Option String}
    (h : (enrichFinish text gs sr te calls).1 = .success s t n e) :
    s.length ≤ 3 ∧ t.length ≤ 3 := by
  unfold enrichFinish at h
  cases hr : recoverAiCore text with
  | some j =>
      rw [hr] at h
      obtain ⟨hs, ht⟩ := enrichSuccess_mk j sr te h
      rw [hs, ht]
      exact ⟨normalizeField_length_le _ _ _ rfl, normalizeField_length_le _ _ _ rfl⟩
  | none =>
      rw [hr] at h
      cases gs with
      | err b m => simp at h
      | ok st =>
          obtain ⟨hs, ht⟩ := enrichSuccess_mk _ sr te h
          rw [hs, ht]
          exact ⟨normalizeField_length_le _ _ _ rfl, normalizeField_length_le _ _ _ rfl⟩

lemma enrichGenPhase_success_bounds (sr : TavilyResponse) (tavErr : Option String)
    (calls0 : List OutboundCall) (gen1 : GenAttempt) (resolver : Except String String)
    (genFallback genStrict : GenAttempt)
    {s t : List Json} {n : Nat} {e : Option String}
    (h : (enrichGenPhase sr tavErr calls0 gen1 resolver genFallback genStrict).1
      = .success s t n e) :
    s.length ≤ 3 ∧ t.length ≤ 3 := by
  unfold enrichGenPhase at h
  cases gen1 with
  | ok text => exact enrichFinish_success_bounds _ _ _ _ _ h
  | err b m =>
      cases b with
      | false => simp at h
      | true =>
          simp only [Bool.not_true] at h
          cases resolver with
          | error rmsg => simp at h
          | ok nm =>
              cases genFallback with
              | err b2 fmsg => simp at h
              | ok text => exact enrichFinish_success_bounds _ _ _ _ _ h

/-- C1 (amended): every successful enrichment response has at most 3
summary entries and at most 3 industry tags; when the recovered object's
field is missing or not an array the fixed 3-entry Step-4 default is used,
but an array field is only truncated, never padded, so fewer than 3
entries (including zero) can be returned. -/
theorem enrich_result_normalization_bounds (req : EnrichProfileRequest)
    (env : EnrichEnv) (searchOutcome : Except String TavilyResponse)
    (gen1 : GenAttempt) (resolver : Except String String)
    (genFallback genStrict : GenAttempt) :
    (∀ s t n e, (enrichPOST req env searchOutcome gen1 resolver genFallback genStrict).1
        = .success s t n e → s.length ≤ 3 ∧ t.length ≤ 3) ∧
    (∀ j, (∀ xs, jsonField j "summary" ≠ some (.arr xs)) →
      normalizeField j "summary" step4DefaultSummary = step4DefaultSummary.map Json.str) ∧
    (∀ j xs, jsonField j "summary" = some (.arr xs) →
      normalizeField j "summary" step4DefaultSummary = xs.take 3) ∧
    (step4DefaultSummary.map Json.str).length = 3 ∧
    (step4DefaultTags.map Json.str).length = 3 := by
  refine ⟨?_, ?_, ?_, by rfl, by rfl⟩
  · intro s t n e h
    unfold enrichPOST at h
    by_cases hname : (jsTrimList req.name.data).isEmpty
    · rw [if_pos hname] at h; simp at h
    · rw [if_neg hname] at h
      cases hg : env.geminiKey with
      | none => rw [hg] at h; simp at h
      | some gk =>
          rw [hg] at h
          dsimp only at h
          by_cases hgke : gk.isEmpty
          · rw [if_pos hgke] at h; simp at h
          · rw [if_neg hgke] at h
            rcases hstep : enrichSearchStep env searchOutcome with ⟨sr, te, c0⟩
            rw [hstep] at h
            exact enrichGenPhase_success_bounds _ _ _ _ _ _ _ h
  · intro j hna
    unfold normalizeField
    cases hf : jsonField j "summary" with
    | none => rfl
    | some v =>
        cases v with
        | arr xs => exact absurd hf (hna xs)
        | null => rfl
        | bool b => rfl
        | num m => rfl
        | str st => rfl
        | obj fs => rfl
  · intro j xs hf
    unfold normalizeField
    rw [hf]

/-- A concrete valid request for the C1 evaluations. -/
def enrichDemoReq : EnrichProfileRequest := ⟨"Ann Lee", none, none, none, none⟩

/-- A concrete environment with both credentials present. -/
def enrichDemoEnv : EnrichEnv := ⟨some "k", some "tk"⟩

/-- Whether an outcome satisfies claim C1's bounds (summary exactly 3,
industry tags 1 to 3). -/
def claimC1Bounds (o : EnrichOutcome) : Prop :=
  ∀ s t n e, o = .success s t n e → s.length = 3 ∧ 1 ≤ t.length ∧ t.length ≤ 3

/-- C1 counterexample: the generation service returning
`{"summary":[],"industry_tags":[]}` — well-formed JSON with empty arrays —
produces a success response with a 0-entry summary and 0 tags: the code
truncates with `.slice(0, 3)` but never pads. -/
theorem enrich_empty_arrays_counterexample :
    (enrichPOST enrichDemoReq enrichDemoEnv (.ok emptyTavilyResponse)
        (.ok "\x7b\"summary\":[],\"industry_tags\":[]\x7d") (.error "unused")
        (.err false "unused") (.err false "unused")).1
      = .success [] [] 0 none ∧
    ¬ claimC1Bounds (enrichPOST enrichDemoReq enrichDemoEnv (.ok emptyTavilyResponse)
        (.ok "\x7b\"summary\":[],\"industry_tags\":[]\x7d") (.error "unused")
        (.err false "unused") (.err false "unused")).1 := by
  refine ⟨by rfl, ?_⟩
  intro h
  have h2 := h [] [] 0 none (by rfl)
  simp at h2

/-- C1 witness: a concrete run whose success outcome satisfies the amended
bounds. -/
theorem enrich_result_normalization_witness :
    (enrichPOST enrichDemoReq enrichDemoEnv (.ok emptyTavilyResponse)
        (.ok "\x7b\"summary\":[\"a\",\"b\",\"c\",\"d\"],\"industry_tags\":[\"x\"]\x7d")
        (.error "unused") (.err false "unused") (.err false "unused")).1
      = .success [Json.str "a", Json.str "b", Json.str "c"] [Json.str "x"] 0 none ∧
    ([Json.str "a", Json.str "b", Json.str "c"].length ≤ 3 ∧
      [Json.str "x"].length ≤ 3) :=
  ⟨by rfl,
   (enrich_result_normalization_bounds enrichDemoReq enrichDemoEnv
      (.ok emptyTavilyResponse)
      (.ok "\x7b\"summary\":[\"a\",\"b\",\"c\",\"d\"],\"industry_tags\":[\"x\"]\x7d")
      (.error "unused") (.err false "unused") (.err false "unused")).1
     [Json.str "a", Json.str "b", Json.str "c"] [Json.str "x"] 0 none (by rfl)⟩

/-- Replace the recorded search-failure message on a success outcome
(errors are unaffected: they never carry one). -/
def setTavilyError (e : Option String) : EnrichOutcome → EnrichOutcome
  | .success s t n _ => .success s t n e
  | o => o

lemma enrichFinish_tavErr (text : String) (gs : GenAttempt) (sr : TavilyResponse)
    (te : Option String) (calls : List OutboundCall) :
    enrichFinish text gs sr te calls
      = (setTavilyError te (enrichFinish text gs sr none calls).1,
         (enrichFinish text gs sr none calls).2) := by
  unfold enrichFinish
  cases recoverAiCore text with
  | some j => simp [enrichSuccess, setTavilyError]
  | none =>
      cases gs with
      | err b m => simp [setTavilyError]
      | ok st => simp [enrichSuccess, setTavilyError]

lemma enrichGenPhase_tavErr (sr : TavilyResponse) (te : Option String)
    (calls0 : List OutboundCall) (gen1 : GenAttempt) (resolver : Except String String)
    (genFallback genStrict : GenAttempt) :
    enrichGenPhase sr te calls0 gen1 resolver genFallback genStrict
      = (setTavilyError te
           (enrichGenPhase sr none calls0 gen1 resolver genFallback genStrict).1,
         (enrichGenPhase sr none calls0 gen1 resolver genFallback genStrict).2) := by
  unfold enrichGenPhase
  cases gen1 with
  | ok text => exact enrichFinish_tavErr _ _ _ _ _
  | err b m =>
      cases b with
      | false => simp [setTavilyError]
      | true =>
          simp only [Bool.not_true]
          cases resolver with
          | error rmsg => simp [setTavilyError]
          | ok nm =>
              cases genFallback with
              | err b2 fmsg => simp [setTavilyError]
              | ok text => exact enrichFinish_tavErr _ _ _ _ _

/-- C8: an empty/whitespace name yields the validation error with no
outbound call made; a valid name with the generation credential absent (or
empty, which is falsy in the source) yields the configuration error with no
outbound call made; and a failed search call never aborts the request — the
outcome equals that of a run whose search returned the empty response, with
only the recorded search-error message differing. -/
theorem enrich_fail_fast_and_search_degradation (req : EnrichProfileRequest)
    (env : EnrichEnv) (gen1 : GenAttempt) (resolver : Except String String)
    (genFallback genStrict : GenAttempt) :
    ((jsTrimList req.name.data).isEmpty = true →
      ∀ searchOutcome, enrichPOST req env searchOutcome gen1 resolver genFallback genStrict
        = (.validationError "Name is required", [])) ∧
    ((jsTrimList req.name.data).isEmpty = false →
      (env.geminiKey = none ∨ env.geminiKey = some "") →
      ∀ searchOutcome, enrichPOST req env searchOutcome gen1 resolver genFallback genStrict
        = (.configError "Missing DEFAULT_GEMINI_API_KEY server env var", [])) ∧
    (∀ gk tk e, (jsTrimList req.name.data).isEmpty = false →
      env.geminiKey = some gk → gk.isEmpty = false →
      env.tavilyKey = some tk → tk.isEmpty = false →
      enrichPOST req env (.error e) gen1 resolver genFallback genStrict
        = (setTavilyError (some e)
             (enrichPOST req env (.ok emptyTavilyResponse) gen1 resolver
               genFallback genStrict).1,
           (enrichPOST req env (.ok emptyTavilyResponse) gen1 resolver
               genFallback genStrict).2)) := by
  refine ⟨?_, ?_, ?_⟩
  · intro hname searchOutcome
    simp [enrichPOST, hname]
  · intro hname hkey searchOutcome
    have hemp : ("" : String).isEmpty = true := rfl
    rcases hkey with h | h <;> simp [enrichPOST, hname, h, hemp]
  · intro gk tk e hname hgk hgke htk htke
    have hstepErr : enrichSearchStep env (.error e)
        = (emptyTavilyResponse, some e, [.tavilySearch]) := by
      simp [enrichSearchStep, htk, htke]
    have hstepOk : enrichSearchStep env (.ok emptyTavilyResponse)
        = (emptyTavilyResponse, none, [.tavilySearch]) := by
      simp [enrichSearchStep, htk, htke]
    simp only [enrichPOST, hname, hgk, hgke, hstepErr, hstepOk]
    simp only [Bool.false_eq_true, if_false]
    exact enrichGenPhase_tavErr emptyTavilyResponse (some e) [.tavilySearch]
      gen1 resolver genFallback genStrict

/-- C8 witness: the three behaviors at concrete inputs — a whitespace name,
a missing generation key, and a failed search that still produces the same
success as an empty search (with the error recorded). -/
theorem enrich_fail_fast_witness :
    enrichPOST ⟨" ", none, none, none, none⟩ ⟨some "k", some "tk"⟩
        (.ok emptyTavilyResponse) (.ok "\x7b\x7d") (.error "r") (.err false "f")
        (.err false "s")
      = (.validationError "Name is required", []) ∧
    enrichPOST ⟨"Ann Lee", none, none, none, none⟩ ⟨none, some "tk"⟩
        (.ok emptyTavilyResponse) (.ok "\x7b\x7d") (.error "r") (.err false "f")
        (.err false "s")
      = (.configError "Missing DEFAULT_GEMINI_API_KEY server env var", []) ∧
    enrichPOST enrichDemoReq enrichDemoEnv (.error "search down")
        (.ok "\x7b\"summary\":[\"a\"],\"industry_tags\":[\"x\"]\x7d") (.error "r")
        (.err false "f") (.err false "s")
      = (setTavilyError (some "search down")
           (enrichPOST enrichDemoReq enrichDemoEnv (.ok emptyTavilyResponse)
             (.ok "\x7b\"summary\":[\"a\"],\"industry_tags\":[\"x\"]\x7d") (.error "r")
             (.err false "f") (.err false "s")).1,
         (enrichPOST enrichDemoReq enrichDemoEnv (.ok emptyTavilyResponse)
             (.ok "\x7b\"summary\":[\"a\"],\"industry_tags\":[\"x\"]\x7d") (.error "r")
             (.err false "f") (.err false "s")).2) :=
  ⟨(enrich_fail_fast_and_search_degradation ⟨" ", none, none, none, none⟩
      ⟨some "k", some "tk"⟩ (.ok "\x7b\x7d") (.error "r") (.err false "f")
      (.err false "s")).1 (by rfl) _,
   (enrich_fail_fast_and_search_degradation ⟨"Ann Lee", none, none, none, none⟩
      ⟨none, some "tk"⟩ (.ok "\x7b\x7d") (.error "r") (.err false "f")
      (.err false "s")).2.1 (by rfl) (Or.inl rfl) _,
   (enrich_fail_fast_and_search_degradation enrichDemoReq enrichDemoEnv
      (.ok "\x7b\"summary\":[\"a\"],\"industry_tags\":[\"x\"]\x7d") (.error "r")
      (.err false "f") (.err false "s")).2.2 "k" "tk" "search down"
      (by rfl) (by rfl) (by rfl) (by rfl) (by rfl)⟩
